import Mathlib

/-!
Verification of the AI-assistant backend (Express server bridging a chat
platform with an LLM streaming API).

The development shallowly embeds the two stateful components of the source:

* the streaming response relay (`AnthropicResponseHandler` in the source):
  state `RelayState`, per-event handler `handle`, consumption loop `run`;
* the agent lifecycle registry (`aiAgentCache` / `pendingAiAgents` and the
  route handlers of `index.ts`): a cooperative small-step relation `RegStep`
  whose atomic segments are the stretches of handler code between `await`
  suspension points, as the source runs on a single-threaded event loop;
* the idle sweep (`setInterval` callback): `sweepTick`;
* the `/new-ai-message` prompt construction, including the JavaScript
  string/number coercions that the source's `+ +'Your quirks are: '`
  expression triggers: `systemPrompt`.

Fallible external calls (chat-platform network calls, `createAgent`,
`agent.init`, disposal) are modelled by explicit failure flags or
nondeterministic failure transitions.
-/

/-! ### Streaming response relay (`AnthropicResponseHandler`) -/

/-- Mutable fields of `AnthropicResponseHandler`: `message_text` accumulates
the delta texts, `chunk_counter` counts text-delta events. -/
structure RelayState where
  message_text : String
  chunk_counter : Nat
deriving DecidableEq

/-- Payload of a `content_block_delta` event: either a `text_delta` carrying
text, or a delta of another type (which the handler ignores). -/
inductive DeltaKind
| textDelta (t : String)
| otherDelta
deriving DecidableEq

/-- A raw message-stream event, as switched on by `handle`. The `Bool`
flags model whether the network calls performed while handling the event
reject (the first and, for `message_stop`, the second call). -/
inductive Event
| contentBlockStart (sendFails : Bool)
| contentBlockDelta (d : DeltaKind) (updateFails : Bool)
| messageStop (updateFails : Bool) (sendFails : Bool)
| otherEvent
deriving DecidableEq

/-- An observable side effect of the relay: a `partialUpdateMessage` call
with the text and `generating` flag it sets, one of the two channel
indicator events, or the `console.error` log emitted by the catch in
`run`. -/
inductive Output
| partialUpdate (text : String) (generating : Bool)
| indicatorUpdate
| indicatorClear
| errorLog
deriving DecidableEq

/-- The throttling predicate of the source, applied to the post-increment
counter: `chunk_counter % 15 === 0 || (chunk_counter < 8 && chunk_counter % 2 !== 0)`. -/
def shouldFlush (c : Nat) : Bool :=
  c % 15 == 0 || (decide (c < 8) && c % 2 != 0)

/-- One step of `AnthropicResponseHandler.handle`: returns the new state,
the successfully performed side effects, and whether an error was raised
(a rejected network call). Mutations of `message_text` / `chunk_counter`
happen before the throttled network call, as in the source. -/
def handle (s : RelayState) : Event → RelayState × List Output × Bool
| .contentBlockStart f =>
    if f then (s, [], true) else (s, [.indicatorUpdate], false)
| .contentBlockDelta .otherDelta _ => (s, [], false)
| .contentBlockDelta (.textDelta t) f =>
    let s' : RelayState := ⟨s.message_text ++ t, s.chunk_counter + 1⟩
    if shouldFlush s'.chunk_counter then
      if f then (s', [], true)
      else (s', [.partialUpdate s'.message_text true], false)
    else (s', [], false)
| .messageStop f1 f2 =>
    if f1 then (s, [], true)
    else if f2 then (s, [.partialUpdate s.message_text false], true)
    else (s, [.partialUpdate s.message_text false, .indicatorClear], false)
| .otherEvent => (s, [], false)

/-- `AnthropicResponseHandler.run`: drains the event stream; each event is
handled inside a `try`/`catch` that logs the error (`errorLog`) and
continues with the next event. Returns the final state and the
concatenated trace of side effects. -/
def run : RelayState → List Event → RelayState × List Output
| s, [] => (s, [])
| s, e :: es =>
    let r := handle s e
    let rest := run r.1 es
    (rest.1, (r.2.1 ++ (if r.2.2 then [Output.errorLog] else [])) ++ rest.2)

/-- The state a fresh `AnthropicResponseHandler` starts from. -/
def relayInit : RelayState := ⟨"", 0⟩

/-- Concatenation of a list of strings in order. -/
def concatAll : List String → String
| [] => ""
| t :: ts => t ++ concatAll ts

/-- Project a relay side effect to its partial-update content, if any. -/
def asUpdate : Output → Option (String × Bool)
| .partialUpdate t g => some (t, g)
| _ => none

/-- The content of the last partial update in a trace of side effects. -/
def finalUpdate (outs : List Output) : Option (String × Bool) :=
  (outs.filterMap asUpdate).getLast?

/-- A text-delta event whose throttled update (if any) succeeds. -/
def mkDelta (t : String) : Event := .contentBlockDelta (.textDelta t) false

/-- A stream-end event whose two network calls succeed. -/
def stopOk : Event := .messageStop false false

/-- Number of `ai_indicator.update` events in a trace. -/
def countIndicator : List Output → Nat
| [] => 0
| .indicatorUpdate :: rest => countIndicator rest + 1
| _ :: rest => countIndicator rest

/-- Number of `content_block_start` events (with succeeding send) in an
event list. -/
def countBlockStartOk : List Event → Nat
| [] => 0
| .contentBlockStart false :: rest => countBlockStartOk rest + 1
| _ :: rest => countBlockStartOk rest

/-- Whether a trace contains a partial update. -/
def hasPartialUpdate : List Output → Bool
| [] => false
| .partialUpdate _ _ :: _ => true
| _ :: rest => hasPartialUpdate rest

/-! ### Agent lifecycle registry (`aiAgentCache`, `pendingAiAgents`)

The `/start-ai-agent` and `/new-ai-message` route handlers run on a
single-threaded event loop; shared state (`aiAgentCache`,
`pendingAiAgents`) is only observed between `await` suspension points.
`RegStep` is the induced small-step relation: one constructor per atomic
segment of handler code between suspensions, with nondeterministic
success/failure of the awaited external calls. -/

/-- Phases of one in-flight `/start-ai-agent` request, delimited by the
suspension points of its handler:
`checking` = arrived, guard `!aiAgentCache.has && !pendingAiAgents.has`
not yet executed; `creating` = pending marker added, awaiting
`channel.watch` / `createAgent` / `agent.init`; `disposingDup` = `init`
succeeded but the cache already held the id, awaiting `agent.dispose` of
the loser; `done` = response sent and `finally` executed. -/
inductive StartPhase
| checking
| creating
| disposingDup
| done
deriving DecidableEq

/-- Phases of one in-flight `/new-ai-message` request: `working` = running
(its awaits touch no registry state); `done` = response sent and its
`finally` executed. -/
inductive MsgPhase
| working
| done
deriving DecidableEq

/-- An in-flight request, tagged with the agent id it resolved. -/
inductive AgentProc
| start (id : String) (ph : StartPhase)
| msg (id : String) (ph : MsgPhase)
deriving DecidableEq

/-- Global server state: the two shared collections (membership only),
the in-flight requests, and two event counters — `creations` counts
entries into the creation sequence (`watch`/`createAgent`/`init`) and
`failures` counts creation sequences that threw. -/
structure Sys where
  aiAgentCache : Finset String
  pendingAiAgents : Finset String
  procs : List AgentProc
  creations : Nat
  failures : Nat
deriving DecidableEq

/-- One atomic segment of handler code. Each constructor names the source
lines it embeds (`src/index.ts`). -/
inductive RegStep : Sys → Sys → Prop
| checkBusy (c p : Finset String) (n f : Nat) (pre post : List AgentProc) (id : String)
    (hmem : id ∈ c ∨ id ∈ p) :
    -- lines 97, 120-124, 131-132: guard false, log "already started",
    -- respond, `finally pendingAiAgents.delete(agent_id)`
    RegStep ⟨c, p, pre ++ AgentProc.start id .checking :: post, n, f⟩
            ⟨c, p.erase id, pre ++ AgentProc.start id .done :: post, n, f⟩
| checkFree (c p : Finset String) (n f : Nat) (pre post : List AgentProc) (id : String)
    (hc : id ∉ c) (hp : id ∉ p) :
    -- lines 97-98 then suspension at 104-114: guard true,
    -- `pendingAiAgents.add`, begin watch/createAgent/init
    RegStep ⟨c, p, pre ++ AgentProc.start id .checking :: post, n, f⟩
            ⟨c, insert id p, pre ++ AgentProc.start id .creating :: post, n + 1, f⟩
| createFail (c p : Finset String) (n f : Nat) (pre post : List AgentProc) (id : String) :
    -- lines 125-132: watch/createAgent/init threw; catch responds 500,
    -- `finally` clears the pending marker
    RegStep ⟨c, p, pre ++ AgentProc.start id .creating :: post, n, f⟩
            ⟨c, p.erase id, pre ++ AgentProc.start id .done :: post, n, f + 1⟩
| createOkDup (c p : Finset String) (n f : Nat) (pre post : List AgentProc) (id : String)
    (hc : id ∈ c) :
    -- lines 115-116: init resolved, cache already has the id, begin
    -- disposing the freshly created agent
    RegStep ⟨c, p, pre ++ AgentProc.start id .creating :: post, n, f⟩
            ⟨c, p, pre ++ AgentProc.start id .disposingDup :: post, n, f⟩
| createOkFresh (c p : Finset String) (n f : Nat) (pre post : List AgentProc) (id : String)
    (hc : id ∉ c) :
    -- lines 115, 118, 124, 131-132: init resolved, cache free:
    -- `aiAgentCache.set`, respond, `finally` clears pending — one segment,
    -- no suspension between `set` and the `finally` delete
    RegStep ⟨c, p, pre ++ AgentProc.start id .creating :: post, n, f⟩
            ⟨insert id c, p.erase id, pre ++ AgentProc.start id .done :: post, n, f⟩
| dupDisposed (c p : Finset String) (n f : Nat) (pre post : List AgentProc) (id : String) :
    -- lines 116, 124, 131-132: the duplicate agent was disposed (or its
    -- disposal threw and was caught); respond, `finally` clears pending
    RegStep ⟨c, p, pre ++ AgentProc.start id .disposingDup :: post, n, f⟩
            ⟨c, p.erase id, pre ++ AgentProc.start id .done :: post, n, f⟩
| msgDone (c p : Finset String) (n f : Nat) (pre post : List AgentProc) (id : String) :
    -- lines 232-290: the `/new-ai-message` try/catch completed (success
    -- or failure); its `finally` runs `pendingAiAgents.delete(agent_id)`
    -- although the handler never added the id
    RegStep ⟨c, p, pre ++ AgentProc.msg id .working :: post, n, f⟩
            ⟨c, p.erase id, pre ++ AgentProc.msg id .done :: post, n, f⟩

/-- Reachability through any interleaving of handler segments. -/
def RegReach : Sys → Sys → Prop := Relation.ReflTransGen RegStep

/-- The exclusivity invariant of the spec: no id is simultaneously in the
active registry and in the pending set. -/
def RegInv (s : Sys) : Prop := s.aiAgentCache ∩ s.pendingAiAgents = ∅

/-- Number of occurrences of a completed `/start-ai-agent` request for
`id` among the in-flight requests. -/
def countStartDone (id : String) : List AgentProc → Nat
| [] => 0
| pr :: rest =>
    (if pr = AgentProc.start id .done then 1 else 0) + countStartDone id rest

/-- Number of still-running `/new-ai-message` requests for `id`. -/
def countMsgWorking (id : String) : List AgentProc → Nat
| [] => 0
| pr :: rest =>
    (if pr = AgentProc.msg id .working then 1 else 0) + countMsgWorking id rest

/-- Whether every in-flight request has completed. -/
def procDone : AgentProc → Bool
| .start _ .done => true
| .msg _ .done => true
| _ => false

/-- All requests completed. -/
def allDone (s : Sys) : Bool := s.procs.all procDone

/-- Two `/start-ai-agent` requests for the same identity arriving on an
idle server: the overlapping-start scenario. -/
def startInit (a : String) : Sys :=
  ⟨∅, ∅, [AgentProc.start a .checking, AgentProc.start a .checking], 0, 0⟩

/-- Contribution of a start phase to the number of in-flight creation
sequences. -/
def phaseLoad : StartPhase → Nat
| .creating => 1
| .disposingDup => 1
| _ => 0

/-- Inductive invariant for the two-overlapping-starts system `startInit a`. -/
def TwoStartInv (a : String) (s : Sys) : Prop :=
  ∃ p q, s.procs = [AgentProc.start a p, AgentProc.start a q] ∧
    ((p = .disposingDup ∨ q = .disposingDup) → a ∈ s.aiAgentCache) ∧
    (s.failures = 0 →
      s.creations =
        phaseLoad p + phaseLoad q + (if a ∈ s.aiAgentCache then 1 else 0) ∧
      s.creations ≤ 1 ∧
      (s.creations = 1 ∧ (p = .checking ∨ q = .checking) →
        a ∈ s.pendingAiAgents ∨ a ∈ s.aiAgentCache)) ∧
    (s.creations = 0 →
      s.failures = 0 ∧ a ∉ s.pendingAiAgents ∧ a ∉ s.aiAgentCache ∧
      p = .checking ∧ q = .checking)

/-- Intermediate states of the double-creation interleaving: the first
request enters creation. -/
def dblS1 : Sys :=
  ⟨∅, insert "a" ∅,
    [AgentProc.start "a" .creating, AgentProc.start "a" .checking], 1, 0⟩

/-- ... the first creation fails, clearing the pending marker. -/
def dblS2 : Sys :=
  ⟨∅, (insert "a" (∅ : Finset String)).erase "a",
    [AgentProc.start "a" .done, AgentProc.start "a" .checking], 1, 1⟩

/-- ... the second request now passes the guard and enters creation. -/
def dblS3 : Sys :=
  ⟨∅, insert "a" ((insert "a" (∅ : Finset String)).erase "a"),
    [AgentProc.start "a" .done, AgentProc.start "a" .creating], 2, 1⟩

/-- ... the second creation succeeds and registers. -/
def dblS4 : Sys :=
  ⟨insert "a" ∅,
    (insert "a" ((insert "a" (∅ : Finset String)).erase "a")).erase "a",
    [AgentProc.start "a" .done, AgentProc.start "a" .done], 2, 1⟩

/-- A `/start-ai-agent` and a `/new-ai-message` request for the same
identity in flight together. -/
def mixInit : Sys :=
  ⟨∅, ∅, [AgentProc.start "a" .checking, AgentProc.msg "a" .working], 0, 0⟩

/-- ... the start request has added its pending marker and is creating. -/
def mixMid : Sys :=
  ⟨∅, insert "a" ∅,
    [AgentProc.start "a" .creating, AgentProc.msg "a" .working], 1, 0⟩

/-- ... the message request completes; its `finally` deletes the marker
while the start request is still creating. -/
def mixEnd : Sys :=
  ⟨∅, (insert "a" (∅ : Finset String)).erase "a",
    [AgentProc.start "a" .creating, AgentProc.msg "a" .done], 1, 0⟩

/-! ### Idle sweep (`setInterval` callback, lines 21-31 of `index.ts`) -/

/-- An agent instance as the sweep sees it: its last-interaction timestamp
and whether its `dispose()` call resolves (false = it rejects). -/
structure AgentObj where
  lastInteraction : Nat
  disposeOk : Bool
deriving DecidableEq

/-- `480 * 60 * 1000` ms, as in the source. -/
def inactivityThreshold : Nat := 480 * 60 * 1000

/-- `now - aiAgent.getLastInteraction() > inactivityThreshold`. -/
def expired (now : Nat) (a : AgentObj) : Bool :=
  now - a.lastInteraction > inactivityThreshold

/-- One tick of the idle sweep over the cache entries in iteration order.
Returns the ids disposed and removed, the remaining cache, and whether the
tick was aborted by a rejected disposal (the source loop has no
try/catch: the first rejection terminates the async callback, skipping
the `aiAgentCache.delete` of the failing entry and all later entries). -/
def sweepTick (now : Nat) : List (String × AgentObj) →
    List String × List (String × AgentObj) × Bool
| [] => ([], [], false)
| (id, a) :: rest =>
    if expired now a then
      if a.disposeOk then
        (id :: (sweepTick now rest).1, (sweepTick now rest).2)
      else ([], (id, a) :: rest, true)
    else
      ((sweepTick now rest).1,
        (id, a) :: (sweepTick now rest).2.1, (sweepTick now rest).2.2)

/-- A cache with two expired instances whose first disposal rejects. -/
def cexCache : List (String × AgentObj) := [("a", ⟨0, false⟩), ("b", ⟨0, true⟩)]

/-! ### `/new-ai-message` prompt construction (lines 226-290 of `index.ts`) -/

/-- A row of the `ai_agents` profile table, as selected by
`getAIAgentInfo`. -/
structure AgentInfoRow where
  name : String
  gender : String
  personality : String
  style : String
  traits : String
  quirks : String
  bio : String
deriving DecidableEq

/-- Drop leading whitespace characters. -/
def dropWs : List Char → List Char
| [] => []
| c :: rest => if c.isWhitespace then dropWs rest else c :: rest

/-- Trim whitespace from both ends of a character list. -/
def trimChars (l : List Char) : List Char :=
  ((dropWs (dropWs l).reverse)).reverse

/-- Parse a nonempty all-digit character list as a natural number. -/
def parseNatChars (l : List Char) : Option Nat :=
  if l ≠ [] ∧ l.all (·.isDigit) then
    some (l.foldl (fun acc c => acc * 10 + (c.toNat - 48)) 0)
  else none

/-- JavaScript `Number(string)` restricted to the shapes occurring here:
a whitespace-only string is 0, an optionally signed decimal integer
parses, anything else (in particular any string containing letters) is
NaN (`none`). -/
def jsStringToNumber (s : String) : Option Int :=
  match trimChars s.data with
  | [] => some 0
  | '-' :: rest => (parseNatChars rest).map (fun n => -(n : Int))
  | '+' :: rest => (parseNatChars rest).map (fun n => (n : Int))
  | t => (parseNatChars t).map (fun n => (n : Int))

/-- JavaScript number-to-string coercion: NaN prints as "NaN". -/
def jsNumberToString : Option Int → String
| none => "NaN"
| some n => toString n

/-- A JavaScript value appearing in the concatenation expression: a string
or a number (with `none` as NaN). -/
inductive JSVal
| str (s : String)
| num (v : Option Int)
deriving DecidableEq

/-- The JavaScript binary `+`: concatenation when either side is a
string (numbers are coerced to strings), numeric addition otherwise. -/
def jsAdd : JSVal → JSVal → JSVal
| .str a, .str b => .str (a ++ b)
| .str a, .num v => .str (a ++ jsNumberToString v)
| .num v, .str b => .str (jsNumberToString v ++ b)
| .num a, .num b =>
    .num (match a, b with
          | some x, some y => some (x + y)
          | _, _ => none)

/-- The JavaScript unary `+`: string-to-number coercion. -/
def jsUnaryPlus : JSVal → JSVal
| .str s => .num (jsStringToNumber s)
| .num v => .num v

/-- Coerce a JavaScript value to the string it renders as. -/
def jsValToString : JSVal → String
| .str s => s
| .num v => jsNumberToString v

/-- `agentInfo?.gender || 'female'` for a non-null row: the empty string
is falsy. -/
def genderOrDefault (info : AgentInfoRow) : String :=
  if info.gender = "" then "female" else info.gender

/-- Lines 241-245: the first assignment to `agentProfile`. -/
def profileIntro (info : AgentInfoRow) : String :=
  if genderOrDefault info = "female" then
    "You are a virtual girlfried named " ++ info.name ++ "."
  else
    "You are a virtual boyfriend named " ++ info.name ++ "."

/-- Lines 246-257: the right-hand side of `agentProfile += ...`, with the
source's left-associated `+` chain; the seventh operand is
`+'Your quirks are: '` — a unary plus applied to the label string. -/
def profileBody (info : AgentInfoRow) : JSVal :=
  jsAdd (jsAdd (jsAdd (jsAdd (jsAdd (jsAdd (jsAdd (jsAdd (jsAdd
    (JSVal.str "You have personality: ")
    (JSVal.str info.personality))
    (JSVal.str "and you style is "))
    (JSVal.str info.style))
    (JSVal.str "."))
    (JSVal.str "Your traits are: "))
    (JSVal.str info.traits))
    (jsUnaryPlus (JSVal.str "Your quirks are: ")))
    (JSVal.str info.quirks))
    (JSVal.str ("." ++ ("You have a biography: " ++ info.bio ++ ".")))

/-- The full system prompt sent to the completion API for a non-null
profile row. -/
def systemPrompt (info : AgentInfoRow) : String :=
  profileIntro info ++ jsValToString (profileBody info)

/-- The modelled TypeError raised by evaluating `agentInfo.name` when
`agentInfo` is null. -/
def nullDerefMsg : String := "TypeError: Cannot read properties of null"

/-- Lines 237-257 with a possibly-null `agentInfo`: only the `gender`
access is optional-chained; both branches then evaluate
`agentInfo.name`, which throws on null. -/
def buildPrompt : Option AgentInfoRow → Except String String
| none => .error nullDerefMsg
| some info => .ok (systemPrompt info)

/-- HTTP outcome of the try/catch of the `/new-ai-message` handler. -/
inductive HttpOutcome
| ok200
| error500 (reason : String)
deriving DecidableEq

/-- The try/catch of `/new-ai-message` (lines 232-290): build the prompt
(throws on a null profile row), then await the completion call (which may
itself fail); any thrown error is caught and answered with HTTP 500.
Also returns whether the absent-profile warning was logged (lines
226-230). -/
def newAiMessage (info : Option AgentInfoRow) (modelReply : Except String String) :
    HttpOutcome × Bool :=
  let warned := info.isNone
  match buildPrompt info with
  | .error e => (.error500 e, warned)
  | .ok _prompt =>
      match modelReply with
      | .error e => (.error500 e, warned)
      | .ok _text => (.ok200, warned)

/-! ### Helper lemmas on strings and the relay -/

theorem strAppendAssoc (a b c : String) : a ++ b ++ c = a ++ (b ++ c) := by
  obtain ⟨la⟩ := a; obtain ⟨lb⟩ := b; obtain ⟨lc⟩ := c
  show String.mk (la ++ lb ++ lc) = String.mk (la ++ (lb ++ lc))
  rw [List.append_assoc]

theorem strAppendNil (a : String) : a ++ "" = a := by
  obtain ⟨la⟩ := a
  show String.mk (la ++ []) = String.mk la
  rw [List.append_nil]

theorem strNilAppend (a : String) : "" ++ a = a := by
  obtain ⟨la⟩ := a
  rfl

theorem runAppend (es₁ es₂ : List Event) (s : RelayState) :
    run s (es₁ ++ es₂) =
      ((run (run s es₁).1 es₂).1, (run s es₁).2 ++ (run (run s es₁).1 es₂).2) := by
  induction es₁ generalizing s with
  | nil => simp [run]
  | cons e es ih => simp [run, ih, List.append_assoc]

theorem handleDeltaState (s : RelayState) (t : String) :
    (handle s (mkDelta t)).1 = ⟨s.message_text ++ t, s.chunk_counter + 1⟩ := by
  simp only [handle, mkDelta]
  split <;> rfl

theorem runDeltasState (ds : List String) (s : RelayState) :
    (run s (ds.map mkDelta)).1 =
      ⟨s.message_text ++ concatAll ds, s.chunk_counter + ds.length⟩ := by
  induction ds generalizing s with
  | nil => simp [run, concatAll, strAppendNil]
  | cons t ds ih =>
      simp only [List.map_cons, run, ih, handleDeltaState, concatAll]
      rw [strAppendAssoc]
      simp [Nat.add_assoc, Nat.add_comm 1 ds.length]

theorem shouldFlushOddForm (c : Nat) :
    shouldFlush c = (c % 15 == 0 || (decide (c < 8) && c % 2 == 1)) := by
  unfold shouldFlush
  rcases Nat.mod_two_eq_zero_or_one c with h | h <;> rw [h] <;> rfl

/-- C1: for every finite sequence of text-delta events terminated by a
stream-end event, the text published by the final partial update is the
concatenation of all delta texts in delivery order, with the generating
flag cleared, whatever the intermediate throttled flushes were. -/
theorem final_text_is_concatenation (ds : List String) :
    finalUpdate (run relayInit (ds.map mkDelta ++ [stopOk])).2 =
      some (concatAll ds, false) := by
  rw [runAppend]
  have hst : (run relayInit (ds.map mkDelta)).1 =
      ⟨concatAll ds, ds.length⟩ := by
    rw [runDeltasState]
    simp [relayInit, strNilAppend]
  rw [hst]
  simp only [finalUpdate, List.filterMap_append]
  have hstop : (run (⟨concatAll ds, ds.length⟩ : RelayState) [stopOk]).2 =
      [Output.partialUpdate (concatAll ds) false, Output.indicatorClear] := by
    simp [run, handle, stopOk]
  rw [hstop]
  have : List.filterMap asUpdate
      [Output.partialUpdate (concatAll ds) false, Output.indicatorClear] =
      [(concatAll ds, false)] := rfl
  rw [this]
  exact List.getLast?_concat _

/-- C2: on a text-delta event a throttled partial update is emitted exactly
when the post-increment counter c satisfies c % 15 == 0 or
(c < 8 and c % 2 == 1); over counters 1..30 this fires exactly at
1, 3, 5, 7, 15 and 30. -/
theorem flush_policy :
    (∀ (s : RelayState) (t : String),
      hasPartialUpdate (handle s (mkDelta t)).2.1 =
        ((s.chunk_counter + 1) % 15 == 0 ||
          (decide (s.chunk_counter + 1 < 8) && (s.chunk_counter + 1) % 2 == 1))) ∧
    ((List.range 30).map (· + 1)).filter shouldFlush = [1, 3, 5, 7, 15, 30] := by
  constructor
  · intro s t
    rw [← shouldFlushOddForm]
    simp only [handle, mkDelta]
    split
    · rename_i h
      simp [hasPartialUpdate, h]
    · rename_i h
      rw [Bool.not_eq_true] at h
      rw [h]
      rfl
  · decide

/-- C6 counterexample: the claim says the generation-started indicator is
emitted only on the first block-start of a session, but a session whose
stream delivers two block-start events emits it twice. -/
theorem indicator_emitted_twice :
    countIndicator
      (run relayInit [Event.contentBlockStart false, Event.contentBlockStart false]).2 = 2 ∧
    ¬ countIndicator
      (run relayInit [Event.contentBlockStart false, Event.contentBlockStart false]).2 ≤ 1 := by
  decide

theorem runCons (s : RelayState) (e : Event) (es : List Event) :
    run s (e :: es) =
      ((run (handle s e).1 es).1,
        ((handle s e).2.1 ++ (if (handle s e).2.2 then [Output.errorLog] else [])) ++
          (run (handle s e).1 es).2) := rfl

theorem handleCountIndicator (s : RelayState) (e : Event) :
    countIndicator ((handle s e).2.1 ++ (if (handle s e).2.2 then [Output.errorLog] else [])) =
      countBlockStartOk [e] := by
  cases e with
  | contentBlockStart f => cases f <;> rfl
  | contentBlockDelta d f =>
      cases d with
      | otherDelta => rfl
      | textDelta t =>
          cases f <;> (simp only [handle]; split <;> rfl)
  | messageStop f1 f2 => cases f1 <;> cases f2 <;> rfl
  | otherEvent => rfl

theorem countIndicatorAppend (l₁ l₂ : List Output) :
    countIndicator (l₁ ++ l₂) = countIndicator l₁ + countIndicator l₂ := by
  induction l₁ with
  | nil => simp [countIndicator]
  | cons o rest ih =>
      cases o <;> simp [countIndicator, ih] <;> omega

theorem countBlockStartOkCons (e : Event) (es : List Event) :
    countBlockStartOk (e :: es) = countBlockStartOk [e] + countBlockStartOk es := by
  cases e with
  | contentBlockStart f => cases f <;> simp [countBlockStartOk] <;> omega
  | contentBlockDelta d f => simp [countBlockStartOk]
  | messageStop f1 f2 => simp [countBlockStartOk]
  | otherEvent => simp [countBlockStartOk]

/-- C6 amended: the generation-started indicator is emitted once per
block-start event whose send succeeds, not only on the first one (the
handler keeps no first-occurrence flag); a block-start event never mutates
the relay state, in particular not the message body. -/
theorem indicator_per_block_start :
    (∀ (s : RelayState) (es : List Event),
      countIndicator (run s es).2 = countBlockStartOk es) ∧
    (∀ (s : RelayState) (f : Bool), (handle s (Event.contentBlockStart f)).1 = s) := by
  constructor
  · intro s es
    induction es generalizing s with
    | nil => rfl
    | cons e es ih =>
        rw [runCons, countIndicatorAppend, handleCountIndicator, ih,
          ← countBlockStartOkCons]
  · intro s f
    cases f <;> rfl

/-- C8: the relay consumption loop never terminates early — processing a
concatenation of event segments equals processing them in sequence,
whatever errors occur — and an event whose handling raises an error
contributes a logged error to the trace while the loop continues. -/
theorem run_loop_error_resilience :
    (∀ (s : RelayState) (es₁ es₂ : List Event),
      run s (es₁ ++ es₂) =
        ((run (run s es₁).1 es₂).1, (run s es₁).2 ++ (run (run s es₁).1 es₂).2)) ∧
    (∀ (s : RelayState) (e : Event) (es : List Event),
      (handle s e).2.2 = true → Output.errorLog ∈ (run s (e :: es)).2) := by
  constructor
  · intro s es₁ es₂
    exact runAppend es₁ es₂ s
  · intro s e es herr
    simp [run, herr]

/-- Witness for C8: a rejected indicator send on a block-start event is
logged and does not stop the loop. -/
theorem run_loop_error_resilience_witness :
    Output.errorLog ∈ (run relayInit [Event.contentBlockStart true]).2 :=
  run_loop_error_resilience.2 relayInit (Event.contentBlockStart true) [] rfl

/-- C5: evaluation of the `/new-ai-message` handler at an absent profile
row. The absent-profile warning is logged, but the handler then evaluates
`agentInfo.name` on the null row (only the `gender` access is
optional-chained), so the request ends in HTTP 500 — contradicting the
claim, the code comment `Add null check and provide default values`, and
the logged `using default values` message, which all promise default
substitution. -/
theorem null_profile_yields_500 :
    newAiMessage none (.ok "Welcome!") = (HttpOutcome.error500 nullDerefMsg, true) := rfl

theorem quirksLabelIsNaN : jsUnaryPlus (JSVal.str "Your quirks are: ") = JSVal.num none := by
  decide

/-- C9: for every non-null profile row, the system prompt contains the
substring "NaN" where the `Your quirks are: ` label was intended: the
source's `+ +'Your quirks are: '` applies a unary plus to the label,
yielding NaN, which string-concatenation renders as "NaN". -/
theorem quirks_label_becomes_nan (info : AgentInfoRow) :
    systemPrompt info =
      profileIntro info ++
        ("You have personality: " ++ info.personality ++ "and you style is " ++
          info.style ++ "." ++ "Your traits are: " ++ info.traits ++ "NaN" ++
          info.quirks ++ "." ++ ("You have a biography: " ++ info.bio ++ ".")) := by
  simp only [systemPrompt, profileBody, quirksLabelIsNaN, jsAdd, jsValToString,
    jsNumberToString]
  simp [strAppendAssoc]

/-- C7 counterexample: a cache holding two expired instances, the first of
which fails to dispose. The tick aborts: the failing entry and the second
expired instance both stay in the cache and nothing after the failure is
examined, contradicting the claim that the sweep logs the error and
continues disposing the remaining expired instances. -/
theorem sweep_halts_cex :
    sweepTick 28800001 cexCache = ([], cexCache, true) ∧
    "b" ∉ (sweepTick 28800001 cexCache).1 ∧
    expired 28800001 (⟨0, true⟩ : AgentObj) = true := by
  decide

/-- C7 amended: when disposing an expired instance rejects, the sweep tick
aborts with the error unhandled: entries before the failing one are swept
normally, while the failing instance and every later entry remain in the
cache untouched, with none of the later ids disposed in that tick. -/
theorem sweep_aborts_on_dispose_error (now : Nat) (pre : List (String × AgentObj))
    (id : String) (a : AgentObj) (post : List (String × AgentObj))
    (hpre : ∀ e ∈ pre, expired now e.2 = true → e.2.disposeOk = true)
    (ha : expired now a = true) (hd : a.disposeOk = false) :
    sweepTick now (pre ++ (id, a) :: post) =
      ((pre.filter (fun e => expired now e.2)).map Prod.fst,
        (pre.filter (fun e => !expired now e.2)) ++ (id, a) :: post, true) := by
  induction pre with
  | nil => simp [sweepTick, ha, hd]
  | cons e pre ih =>
      obtain ⟨eid, ea⟩ := e
      have ih' := ih (fun x hx hxe => hpre x (List.mem_cons_of_mem _ hx) hxe)
      by_cases he : expired now ea = true
      · have hok : ea.disposeOk = true :=
          hpre ⟨eid, ea⟩ (List.mem_cons_self _ _) he
        simp [sweepTick, he, hok, ih', List.filter_cons]
      · simp [sweepTick, he, ih', List.filter_cons]

/-- Witness for C7 amended: a concrete three-entry cache whose middle
entry fails disposal — the first id is swept, the rest stay. -/
theorem sweep_aborts_on_dispose_error_witness :
    sweepTick 28800001
        ([("x", ⟨0, true⟩)] ++ ("a", (⟨0, false⟩ : AgentObj)) :: [("b", ⟨0, true⟩)]) =
      (["x"], [("a", ⟨0, false⟩), ("b", ⟨0, true⟩)], true) := by
  have h := sweep_aborts_on_dispose_error 28800001 [("x", ⟨0, true⟩)] "a"
    ⟨0, false⟩ [("b", ⟨0, true⟩)] (by decide) (by decide) rfl
  simpa using h

/-! ### Registry lemmas -/

theorem disjointEraseRight (c p : Finset String) (id : String) (h : c ∩ p = ∅) :
    c ∩ p.erase id = ∅ := by
  apply Finset.eq_empty_iff_forall_not_mem.mpr
  intro x hx
  rw [Finset.mem_inter] at hx
  exact Finset.eq_empty_iff_forall_not_mem.mp h x
    (Finset.mem_inter.mpr ⟨hx.1, Finset.mem_of_mem_erase hx.2⟩)

theorem disjointInsertRight (c p : Finset String) (id : String) (h : c ∩ p = ∅)
    (hc : id ∉ c) : c ∩ insert id p = ∅ := by
  apply Finset.eq_empty_iff_forall_not_mem.mpr
  intro x hx
  rw [Finset.mem_inter, Finset.mem_insert] at hx
  rcases hx.2 with hxid | hxp
  · exact hc (hxid ▸ hx.1)
  · exact Finset.eq_empty_iff_forall_not_mem.mp h x (Finset.mem_inter.mpr ⟨hx.1, hxp⟩)

theorem disjointFresh (c p : Finset String) (id : String) (h : c ∩ p = ∅) :
    insert id c ∩ p.erase id = ∅ := by
  apply Finset.eq_empty_iff_forall_not_mem.mpr
  intro x hx
  rw [Finset.mem_inter, Finset.mem_insert] at hx
  rcases hx.1 with hxid | hxc
  · exact Finset.not_mem_erase x p (hxid ▸ hx.2)
  · exact Finset.eq_empty_iff_forall_not_mem.mp h x
      (Finset.mem_inter.mpr ⟨hxc, Finset.mem_of_mem_erase hx.2⟩)

theorem regInvStep (s s' : Sys) (h : RegInv s) (hs : RegStep s s') : RegInv s' := by
  cases hs with
  | checkBusy c p n f pre post id hmem => exact disjointEraseRight c p id h
  | checkFree c p n f pre post id hc hp => exact disjointInsertRight c p id h hc
  | createFail c p n f pre post id => exact disjointEraseRight c p id h
  | createOkDup c p n f pre post id hc => exact h
  | createOkFresh c p n f pre post id hc => exact disjointFresh c p id h
  | dupDisposed c p n f pre post id => exact disjointEraseRight c p id h
  | msgDone c p n f pre post id => exact disjointEraseRight c p id h

theorem countStartDoneAppend (id : String) (l₁ l₂ : List AgentProc) :
    countStartDone id (l₁ ++ l₂) = countStartDone id l₁ + countStartDone id l₂ := by
  induction l₁ with
  | nil => simp [countStartDone]
  | cons pr rest ih => simp [countStartDone, ih]; omega

theorem countMsgWorkingAppend (id : String) (l₁ l₂ : List AgentProc) :
    countMsgWorking id (l₁ ++ l₂) = countMsgWorking id l₁ + countMsgWorking id l₂ := by
  induction l₁ with
  | nil => simp [countMsgWorking]
  | cons pr rest ih => simp [countMsgWorking, ih]; omega

/-- C3: along every interleaving of handler segments the exclusivity
invariant is preserved — no agent id is ever in both `aiAgentCache` and
`pendingAiAgents` at an observable instant — and every segment that
completes a `/start-ai-agent` request (on the success, failure, busy and
duplicate-disposal paths alike) leaves the id outside the pending set. -/
theorem pending_active_exclusive :
    (∀ s₀ s : Sys, RegInv s₀ → RegReach s₀ s → RegInv s) ∧
    (∀ (s s' : Sys) (id : String), RegStep s s' →
      countStartDone id s.procs < countStartDone id s'.procs →
      id ∉ s'.pendingAiAgents) := by
  constructor
  · intro s₀ s h hr
    induction hr with
    | refl => exact h
    | tail hab hbc ih => exact regInvStep _ _ ih hbc
  · intro s s' id hs hcount
    cases hs with
    | checkBusy c p n f pre post id' hmem =>
        by_cases heq : id' = id
        · subst heq; exact Finset.not_mem_erase _ _
        · exfalso
          simp [countStartDoneAppend, countStartDone, heq] at hcount
    | checkFree c p n f pre post id' hc hp =>
        exfalso; simp [countStartDoneAppend, countStartDone] at hcount
    | createFail c p n f pre post id' =>
        by_cases heq : id' = id
        · subst heq; exact Finset.not_mem_erase _ _
        · exfalso
          simp [countStartDoneAppend, countStartDone, heq] at hcount
    | createOkDup c p n f pre post id' hc =>
        exfalso; simp [countStartDoneAppend, countStartDone] at hcount
    | createOkFresh c p n f pre post id' hc =>
        by_cases heq : id' = id
        · subst heq; exact Finset.not_mem_erase _ _
        · exfalso
          simp [countStartDoneAppend, countStartDone, heq] at hcount
    | dupDisposed c p n f pre post id' =>
        by_cases heq : id' = id
        · subst heq; exact Finset.not_mem_erase _ _
        · exfalso
          simp [countStartDoneAppend, countStartDone, heq] at hcount
    | msgDone c p n f pre post id' =>
        exfalso; simp [countStartDoneAppend, countStartDone] at hcount

/-- Witness for C3: starting from the idle two-request state the invariant
holds after the first request adds its pending marker. -/
theorem pending_active_exclusive_witness : RegInv dblS1 :=
  pending_active_exclusive.1 (startInit "a") dblS1 (by unfold RegInv startInit; decide)
    (Relation.ReflTransGen.single
      (RegStep.checkFree ∅ ∅ 0 0 [] [AgentProc.start "a" .checking] "a"
        (by decide) (by decide)))

/-- C10: every segment that completes a `/new-ai-message` request — the
handler ends through its `finally` on success and failure alike — erases
the resolved agent id from the pending set, although no `/new-ai-message`
segment ever adds to it; concretely, a completing `/new-ai-message`
request clears the pending marker installed by a `/start-ai-agent`
request that is still inside its creation sequence. -/
theorem new_message_clears_pending :
    (∀ (s s' : Sys) (id : String), RegStep s s' →
      countMsgWorking id s'.procs < countMsgWorking id s.procs →
      s'.pendingAiAgents = s.pendingAiAgents.erase id) ∧
    (RegReach mixInit mixEnd ∧
      mixEnd.procs = [AgentProc.start "a" .creating, AgentProc.msg "a" .done] ∧
      "a" ∉ mixEnd.pendingAiAgents) := by
  constructor
  · intro s s' id hs hcount
    cases hs with
    | checkBusy c p n f pre post id' hmem =>
        exfalso; simp [countMsgWorkingAppend, countMsgWorking] at hcount
    | checkFree c p n f pre post id' hc hp =>
        exfalso; simp [countMsgWorkingAppend, countMsgWorking] at hcount
    | createFail c p n f pre post id' =>
        exfalso; simp [countMsgWorkingAppend, countMsgWorking] at hcount
    | createOkDup c p n f pre post id' hc =>
        exfalso; simp [countMsgWorkingAppend, countMsgWorking] at hcount
    | createOkFresh c p n f pre post id' hc =>
        exfalso; simp [countMsgWorkingAppend, countMsgWorking] at hcount
    | dupDisposed c p n f pre post id' =>
        exfalso; simp [countMsgWorkingAppend, countMsgWorking] at hcount
    | msgDone c p n f pre post id' =>
        by_cases heq : id' = id
        · subst heq; rfl
        · exfalso
          simp [countMsgWorkingAppend, countMsgWorking, heq] at hcount
  · refine ⟨?_, rfl, by decide⟩
    exact Relation.ReflTransGen.head
      (RegStep.checkFree ∅ ∅ 0 0 [] [AgentProc.msg "a" .working] "a"
        (by decide) (by decide))
      (Relation.ReflTransGen.single
        (RegStep.msgDone ∅ (insert "a" ∅) 1 0 [AgentProc.start "a" .creating] [] "a"))

/-- Witness for C10: the concrete completing message request of the
interference trace erases the pending marker. -/
theorem new_message_clears_pending_witness :
    mixEnd.pendingAiAgents = mixMid.pendingAiAgents.erase "a" :=
  new_message_clears_pending.1 mixMid mixEnd "a"
    (RegStep.msgDone ∅ (insert "a" ∅) 1 0 [AgentProc.start "a" .creating] [] "a")
    (by decide)

theorem pairDecomp {x y z : AgentProc} {pre post : List AgentProc}
    (h : pre ++ z :: post = [x, y]) :
    (pre = [] ∧ z = x ∧ post = [y]) ∨ (pre = [x] ∧ z = y ∧ post = []) := by
  cases pre with
  | nil =>
      left
      simp at h
      exact ⟨rfl, h.1, h.2⟩
  | cons w pre' =>
      cases pre' with
      | nil =>
          right
          simp at h
          exact ⟨by rw [h.1], h.2.1, h.2.2⟩
      | cons w2 rest =>
          exfalso
          have hl := congrArg List.length h
          simp [List.length_append] at hl

theorem phaseLoadChecking : phaseLoad .checking = 0 := rfl

theorem phaseLoadCreating : phaseLoad .creating = 1 := rfl

theorem phaseLoadDisposing : phaseLoad .disposingDup = 1 := rfl

theorem phaseLoadDone : phaseLoad .done = 0 := rfl

theorem twoStartInvStep (a : String) (s s' : Sys)
    (hinv : TwoStartInv a s) (hs : RegStep s s') : TwoStartInv a s' := by
  obtain ⟨p, q, hprocs, hK, hF, hG⟩ := hinv
  cases hs with
  | checkBusy c pd n f pre post id hmem =>
      rcases pairDecomp hprocs with ⟨hpre, hz, hpost⟩ | ⟨hpre, hz, hpost⟩
      · injection hz with hid hph
        subst hid; subst hph; subst hpre; subst hpost
        dsimp only at hK hF hG
        refine ⟨.done, q, rfl, ?_, ?_, ?_⟩ <;> dsimp only
        · rintro (h | h)
          · simp at h
          · exact hK (Or.inr h)
        · intro hf
          obtain ⟨heq, hle, himp⟩ := hF hf
          refine ⟨by simpa [phaseLoadChecking, phaseLoadDone] using heq, hle, ?_⟩
          rintro ⟨h1, h2 | h2⟩
          · simp at h2
          · rcases himp ⟨h1, Or.inr h2⟩ with hpd | hc2
            · by_cases hac : id ∈ c
              · exact Or.inr hac
              · exfalso
                rw [h2] at heq
                simp [phaseLoadChecking, hac] at heq
                omega
            · exact Or.inr hc2
        · intro h0
          obtain ⟨hf0, hnp, hnc, hpc, hqc⟩ := hG h0
          rcases hmem with h | h
          · exact absurd h hnc
          · exact absurd h hnp
      · injection hz with hid hph
        subst hid; subst hph; subst hpre; subst hpost
        dsimp only at hK hF hG
        refine ⟨p, .done, rfl, ?_, ?_, ?_⟩ <;> dsimp only
        · rintro (h | h)
          · exact hK (Or.inl h)
          · simp at h
        · intro hf
          obtain ⟨heq, hle, himp⟩ := hF hf
          refine ⟨by simpa [phaseLoadChecking, phaseLoadDone] using heq, hle, ?_⟩
          rintro ⟨h1, h2 | h2⟩
          · rcases himp ⟨h1, Or.inl h2⟩ with hpd | hc2
            · by_cases hac : id ∈ c
              · exact Or.inr hac
              · exfalso
                rw [h2] at heq
                simp [phaseLoadChecking, hac] at heq
                omega
            · exact Or.inr hc2
          · simp at h2
        · intro h0
          obtain ⟨hf0, hnp, hnc, hpc, hqc⟩ := hG h0
          rcases hmem with h | h
          · exact absurd h hnc
          · exact absurd h hnp
  | checkFree c pd n f pre post id hc hp =>
      rcases pairDecomp hprocs with ⟨hpre, hz, hpost⟩ | ⟨hpre, hz, hpost⟩
      · injection hz with hid hph
        subst hid; subst hph; subst hpre; subst hpost
        dsimp only at hK hF hG
        refine ⟨.creating, q, rfl, ?_, ?_, ?_⟩ <;> dsimp only
        · rintro (h | h)
          · simp at h
          · exact hK (Or.inr h)
        · intro hf
          obtain ⟨heq, hle, himp⟩ := hF hf
          have hn0 : n = 0 := by
            by_contra hne
            have h1 : n = 1 := by omega
            rcases himp ⟨h1, Or.inl rfl⟩ with h | h
            · exact hp h
            · exact hc h
          refine ⟨?_, by omega, ?_⟩
          · subst hn0
            simp [phaseLoadChecking, phaseLoadCreating, hc] at heq ⊢
            omega
          · intro _
            exact Or.inl (Finset.mem_insert_self id pd)
        · intro h0
          exact absurd h0 (by omega)
      · injection hz with hid hph
        subst hid; subst hph; subst hpre; subst hpost
        dsimp only at hK hF hG
        refine ⟨p, .creating, rfl, ?_, ?_, ?_⟩ <;> dsimp only
        · rintro (h | h)
          · exact hK (Or.inl h)
          · simp at h
        · intro hf
          obtain ⟨heq, hle, himp⟩ := hF hf
          have hn0 : n = 0 := by
            by_contra hne
            have h1 : n = 1 := by omega
            rcases himp ⟨h1, Or.inr rfl⟩ with h | h
            · exact hp h
            · exact hc h
          refine ⟨?_, by omega, ?_⟩
          · subst hn0
            simp [phaseLoadChecking, phaseLoadCreating, hc] at heq ⊢
            omega
          · intro _
            exact Or.inl (Finset.mem_insert_self id pd)
        · intro h0
          exact absurd h0 (by omega)
  | createFail c pd n f pre post id =>
      rcases pairDecomp hprocs with ⟨hpre, hz, hpost⟩ | ⟨hpre, hz, hpost⟩
      · injection hz with hid hph
        subst hid; subst hph; subst hpre; subst hpost
        dsimp only at hK hF hG
        refine ⟨.done, q, rfl, ?_, ?_, ?_⟩ <;> dsimp only
        · rintro (h | h)
          · simp at h
          · exact hK (Or.inr h)
        · intro hf
          exact absurd hf (by omega)
        · intro h0
          exact absurd (hG h0).2.2.2.1 (by decide)
      · injection hz with hid hph
        subst hid; subst hph; subst hpre; subst hpost
        dsimp only at hK hF hG
        refine ⟨p, .done, rfl, ?_, ?_, ?_⟩ <;> dsimp only
        · rintro (h | h)
          · exact hK (Or.inl h)
          · simp at h
        · intro hf
          exact absurd hf (by omega)
        · intro h0
          exact absurd (hG h0).2.2.2.2 (by decide)
  | createOkDup c pd n f pre post id hc =>
      rcases pairDecomp hprocs with ⟨hpre, hz, hpost⟩ | ⟨hpre, hz, hpost⟩
      · injection hz with hid hph
        subst hid; subst hph; subst hpre; subst hpost
        dsimp only at hK hF hG
        refine ⟨.disposingDup, q, rfl, ?_, ?_, ?_⟩ <;> dsimp only
        · intro _
          exact hc
        · intro hf
          exfalso
          obtain ⟨heq, hle, _⟩ := hF hf
          simp [phaseLoadCreating, hc] at heq
          omega
        · intro h0
          exact absurd (hG h0).2.2.2.1 (by decide)
      · injection hz with hid hph
        subst hid; subst hph; subst hpre; subst hpost
        dsimp only at hK hF hG
        refine ⟨p, .disposingDup, rfl, ?_, ?_, ?_⟩ <;> dsimp only
        · intro _
          exact hc
        · intro hf
          exfalso
          obtain ⟨heq, hle, _⟩ := hF hf
          simp [phaseLoadCreating, hc] at heq
          omega
        · intro h0
          exact absurd (hG h0).2.2.2.2 (by decide)
  | createOkFresh c pd n f pre post id hc =>
      rcases pairDecomp hprocs with ⟨hpre, hz, hpost⟩ | ⟨hpre, hz, hpost⟩
      · injection hz with hid hph
        subst hid; subst hph; subst hpre; subst hpost
        dsimp only at hK hF hG
        refine ⟨.done, q, rfl, ?_, ?_, ?_⟩ <;> dsimp only
        · intro _
          exact Finset.mem_insert_self id c
        · intro hf
          obtain ⟨heq, hle, himp⟩ := hF hf
          refine ⟨?_, hle, ?_⟩
          · simp [phaseLoadCreating, hc] at heq
            simp [phaseLoadDone, Finset.mem_insert_self]
            omega
          · intro _
            exact Or.inr (Finset.mem_insert_self id c)
        · intro h0
          exact absurd (hG h0).2.2.2.1 (by decide)
      · injection hz with hid hph
        subst hid; subst hph; subst hpre; subst hpost
        dsimp only at hK hF hG
        refine ⟨p, .done, rfl, ?_, ?_, ?_⟩ <;> dsimp only
        · intro _
          exact Finset.mem_insert_self id c
        · intro hf
          obtain ⟨heq, hle, himp⟩ := hF hf
          refine ⟨?_, hle, ?_⟩
          · simp [phaseLoadCreating, hc] at heq
            simp [phaseLoadDone, Finset.mem_insert_self]
            omega
          · intro _
            exact Or.inr (Finset.mem_insert_self id c)
        · intro h0
          exact absurd (hG h0).2.2.2.2 (by decide)
  | dupDisposed c pd n f pre post id =>
      rcases pairDecomp hprocs with ⟨hpre, hz, hpost⟩ | ⟨hpre, hz, hpost⟩
      · injection hz with hid hph
        subst hid; subst hph; subst hpre; subst hpost
        dsimp only at hK hF hG
        refine ⟨.done, q, rfl, ?_, ?_, ?_⟩ <;> dsimp only
        · rintro (h | h)
          · simp at h
          · exact hK (Or.inr h)
        · intro hf
          exfalso
          have hac : id ∈ c := hK (Or.inl rfl)
          obtain ⟨heq, hle, _⟩ := hF hf
          simp [phaseLoadDisposing, hac] at heq
          omega
        · intro h0
          exact absurd (hG h0).2.2.2.1 (by decide)
      · injection hz with hid hph
        subst hid; subst hph; subst hpre; subst hpost
        dsimp only at hK hF hG
        refine ⟨p, .done, rfl, ?_, ?_, ?_⟩ <;> dsimp only
        · rintro (h | h)
          · exact hK (Or.inl h)
          · simp at h
        · intro hf
          exfalso
          have hac : id ∈ c := hK (Or.inr rfl)
          obtain ⟨heq, hle, _⟩ := hF hf
          simp [phaseLoadDisposing, hac] at heq
          omega
        · intro h0
          exact absurd (hG h0).2.2.2.2 (by decide)
  | msgDone c pd n f pre post id =>
      rcases pairDecomp hprocs with ⟨hpre, hz, hpost⟩ | ⟨hpre, hz, hpost⟩ <;>
        simp at hz

theorem twoStartInvReach (a : String) (s : Sys)
    (hr : RegReach (startInit a) s) : TwoStartInv a s := by
  induction hr with
  | refl =>
      refine ⟨.checking, .checking, rfl, ?_, ?_, ?_⟩ <;> dsimp only [startInit]
      · rintro (h | h) <;> simp at h
      · intro _
        refine ⟨by simp [phaseLoadChecking], by simp, ?_⟩
        rintro ⟨h1, _⟩
        simp at h1
      · intro _
        exact ⟨rfl, Finset.not_mem_empty a, Finset.not_mem_empty a, rfl, rfl⟩
  | tail hab hbc ih => exact twoStartInvStep a _ _ ih hbc

/-- C4 counterexample: an interleaving of two overlapping start requests
for the same identity with two creation-sequence invocations. The first
request passes the guard and invokes the factory, the creation fails (its
`finally` clears the pending marker), and only then does the second
request reach its guard: it passes too and invokes the factory again.
Both requests complete with the factory invoked twice, not exactly
once. -/
theorem two_start_requests_double_invocation :
    RegReach (startInit "a") dblS4 ∧ allDone dblS4 = true ∧
    dblS4.creations = 2 ∧ dblS4.creations ≠ 1 := by
  refine ⟨?_, by decide, rfl, by decide⟩
  exact Relation.ReflTransGen.head
    (RegStep.checkFree ∅ ∅ 0 0 [] [AgentProc.start "a" .checking] "a"
      (by decide) (by decide))
    (Relation.ReflTransGen.head
      (RegStep.createFail ∅ (insert "a" (∅ : Finset String)) 1 0 []
        [AgentProc.start "a" .checking] "a")
      (Relation.ReflTransGen.head
        (RegStep.checkFree ∅ ((insert "a" (∅ : Finset String)).erase "a") 1 1
          [AgentProc.start "a" .done] [] "a" (by decide) (by decide))
        (Relation.ReflTransGen.single
          (RegStep.createOkFresh ∅
            (insert "a" ((insert "a" (∅ : Finset String)).erase "a")) 2 1
            [AgentProc.start "a" .done] [] "a" (by decide)))))

/-- C4 amended: a segment that invokes the factory (entering the creation
sequence) requires the id to be absent from both the active registry and
the pending set at that instant; consequently two overlapping start
requests for the same identity invoke the factory at most once as long as
no creation attempt fails, and at least once by the time both requests
have completed — a failed first creation, however, lets the second
request invoke the factory again. -/
theorem single_flight_amended :
    (∀ (s s' : Sys), RegStep s s' → s.creations < s'.creations →
      ∃ (id : String) (pre post : List AgentProc),
        s.procs = pre ++ AgentProc.start id .checking :: post ∧
        id ∉ s.aiAgentCache ∧ id ∉ s.pendingAiAgents) ∧
    (∀ (a : String) (s : Sys), RegReach (startInit a) s →
      (s.failures = 0 → s.creations ≤ 1) ∧ (allDone s = true → 1 ≤ s.creations)) := by
  constructor
  · intro s s' hs hlt
    cases hs with
    | checkBusy c pd n f pre post id hmem =>
        dsimp only at hlt
        exact absurd hlt (by omega)
    | checkFree c pd n f pre post id hc hp => exact ⟨id, pre, post, rfl, hc, hp⟩
    | createFail c pd n f pre post id =>
        dsimp only at hlt
        exact absurd hlt (by omega)
    | createOkDup c pd n f pre post id hc =>
        dsimp only at hlt
        exact absurd hlt (by omega)
    | createOkFresh c pd n f pre post id hc =>
        dsimp only at hlt
        exact absurd hlt (by omega)
    | dupDisposed c pd n f pre post id =>
        dsimp only at hlt
        exact absurd hlt (by omega)
    | msgDone c pd n f pre post id =>
        dsimp only at hlt
        exact absurd hlt (by omega)
  · intro a s hr
    obtain ⟨p, q, hprocs, hK, hF, hG⟩ := twoStartInvReach a s hr
    constructor
    · intro hf
      exact (hF hf).2.1
    · intro hd
      by_contra hlt
      have h0 : s.creations = 0 := by omega
      have hpch := (hG h0).2.2.2.1
      unfold allDone at hd
      rw [hprocs, hpch] at hd
      simp [procDone] at hd

/-- Witness for C4 amended: after the first request of the two-request
system passes its guard, no failure has occurred and the factory has been
invoked exactly once. -/
theorem single_flight_amended_witness : dblS1.creations ≤ 1 :=
  (single_flight_amended.2 "a" dblS1
    (Relation.ReflTransGen.single
      (RegStep.checkFree ∅ ∅ 0 0 [] [AgentProc.start "a" .checking] "a"
        (by decide) (by decide)))).1 rfl
